import Mathlib

/-!
# Verification development for `tcp-socket` (`conn.go`, `service.go`)

A shallow embedding of the connection read/write units (`Conn.readCoroutine`,
`Conn.writeCoroutine`, `Conn.SendMessage`, `NewConn`) and of the service
(`SocketService.connectHandler`, `SetHeartBeat`, `Serv`, `Unicast`,
`Broadcast`).

Conventions of the embedding:

* `sendCh` is the list of the packets pending on it, oldest first, at most 100
  of them, its capacity; a send on a full `sendCh` waits until the write unit
  has taken a packet;
* `done` and `messageCh` are the lists of the values the units have sent on
  them, oldest first;
* the socket (`net.Conn`) is the sequence of bytes and failures its peer will
  deliver, plus what has been written to it;
* a `time.Timer` is a flag (armed or not) and the content of its channel `C`;
  the passing of time is a step of the environment that fires an armed timer;
* pointers (`*Conn`) are indices into a heap of connections;
* counters documented as "ghost" record what the code did and are never read
  by the code itself.
-/

namespace TcpSocket

/-! ## Bytes, errors, messages -/

/-- One octet. -/
abbrev Byte := Fin 256

/-- The Go `error` values that occur: the three `errors.New` literals of the
source, the errors of `io.ReadFull`, and any other error by its text. -/
inductive Err where
  | eof
  | unexpectedEOF
  | closed
  | dataHeader
  | outOfMemory
  | serviceRunning
  | other (text : String)
deriving DecidableEq, Repr

/-- Modelled from the spec: the type `Message` is declared outside the given
sources; the spec describes it as an envelope of a `kind` discriminator (read by
`GetID`) and a `payload` byte sequence. -/
structure Message where
  id : Nat
  data : List Byte
deriving DecidableEq, Repr

/-- Accessor `Message.GetID` used by `readCoroutine`. -/
def Message.GetID (m : Message) : Nat := m.id

/-- Constructor `NewMessage(id, data)` used by `writeCoroutine`. -/
def NewMessage (id : Nat) (data : List Byte) : Message := { id := id, data := data }

/-- The codec and the reserved heartbeat kind are declared outside the given
sources; every definition that uses them takes them as this parameter. Nothing
is assumed about `Encode` being a function of the message alone: its first
argument numbers the calls made so far, so that each call may succeed or fail on
its own. -/
structure Codec where
  Encode : Nat → Message → Except Err (List Byte)
  Decode : List Byte → Except Err Message
  MsgHeartbeat : Nat

/-! ## `strconv.Atoi` and `binary.Read` on the 4-byte header -/

/-- The digit loop of `strconv.Atoi`: `ch -= '0'` in byte arithmetic, a syntax
error (`none`) when `ch > 9`, otherwise `n = n*10 + int(ch)`. -/
def atoiLoop (n : Nat) : List Byte → Option Nat
  | [] => some n
  | ch :: rest =>
    let d := (ch.val + 256 - 48) % 256
    if d > 9 then none else atoiLoop (n * 10 + d) rest

/-- Clamp of `strconv.ParseInt(s, 10, 0)` to the 64-bit `int` range. -/
def clampInt64 (v : Int) : Int :=
  if v > 9223372036854775807 then 9223372036854775807
  else if v < -9223372036854775808 then -9223372036854775808
  else v

/-- The function `strconv.Atoi` of the Go standard library on a byte string,
returning the integer and whether an error was returned. Strings of 1 to 18
bytes take the fast path (optional sign, then decimal digits only); the others
take `ParseInt(s, 10, 0)`, whose value is 0 on a syntax error and is clamped on
a range error. -/
def Atoi (s : List Byte) : Int × Bool :=
  if 0 < s.length ∧ s.length < 19 then
    match s with
    | [] => (0, true)
    | c0 :: tl =>
      let body := if c0.val = 45 ∨ c0.val = 43 then tl else c0 :: tl
      if body.length < 1 then (0, true)
      else
        match atoiLoop 0 body with
        | none => (0, true)
        | some n => (if c0.val = 45 then -(n : Int) else (n : Int), false)
  else
    match s with
    | [] => (0, true)
    | c0 :: tl =>
      let body := if c0.val = 45 ∨ c0.val = 43 then tl else c0 :: tl
      if body.length < 1 then (0, true)
      else
        match atoiLoop 0 body with
        | none => (0, true)
        | some n =>
          let v : Int := if c0.val = 45 then -(n : Int) else (n : Int)
          (clampInt64 v, decide (clampInt64 v ≠ v))

/-- Two's-complement reading of a 32-bit pattern as Go `int32`. -/
def toInt32 (u : Nat) : Int :=
  if u % 4294967296 < 2147483648 then ((u % 4294967296 : Nat) : Int)
  else ((u % 4294967296 : Nat) : Int) - 4294967296

/-- The unsigned 32-bit value of a byte string in little-endian order. -/
def leUint32 : List Byte → Nat
  | [b0, b1, b2, b3] => b0.val + 256 * b1.val + 65536 * b2.val + 16777216 * b3.val
  | _ => 0

/-- The call `binary.Read(bytes.NewReader(buf), binary.LittleEndian, &dataSize)`
with `dataSize` an `int32`: it needs exactly 4 bytes from the reader, and fails
with `io.EOF` or `io.ErrUnexpectedEOF` on a shorter one. -/
def binaryReadLittleEndianInt32 (buf : List Byte) : Except Err Int :=
  match buf with
  | [] => .error .eof
  | b0 :: b1 :: b2 :: b3 :: _ => .ok (toInt32 (leUint32 [b0, b1, b2, b3]))
  | _ => .error .unexpectedEOF

/-- The declared length of a 4-byte header in network (big-endian) byte order,
as an unsigned 32-bit integer: the framing convention the specification
mandates. The code never computes it. -/
def specDeclaredLength : List Byte → Nat
  | [b0, b1, b2, b3] => 16777216 * b0.val + 65536 * b1.val + 256 * b2.val + b3.val
  | _ => 0

/-- The 4-byte big-endian encoding of `n`, the header the specification
mandates for a payload of `n` bytes. -/
def specHeader (n : Nat) : List Byte :=
  [Fin.ofNat (n / 16777216), Fin.ofNat (n / 65536), Fin.ofNat (n / 256), Fin.ofNat n]

/-! ## The socket -/

/-- What the peer side of the socket delivers next: a byte, or a failure of
the pending read (deadline exceeded, reset, ...). -/
inductive SockEvent where
  | byte (b : Byte)
  | fail (e : Err)
deriving DecidableEq, Repr

/-- The underlying `net.Conn`. `input` is everything reads will meet, in order
(after it, end of file); `deadlineErr` is the error `SetReadDeadline` returns on
an open socket, if any; `written` collects the packets written. `deadlines` is a
ghost log of the durations passed to `SetReadDeadline`. -/
structure RawConn where
  remoteAddr : String
  input : List SockEvent
  closed : Bool
  deadlineErr : Option Err
  writeErr : Option Err
  written : List (List Byte)
  deadlines : List Int
deriving DecidableEq, Repr

/-- The loop of `io.ReadFull`: gather `n` more bytes; `acc` holds the bytes
gathered so far, newest first. Returns the result and the input left. -/
def readFullAux : Nat → List SockEvent → List Byte → Except Err (List Byte) × List SockEvent
  | 0, inp, acc => (.ok acc.reverse, inp)
  | _ + 1, [], acc => (.error (if acc.isEmpty then Err.eof else Err.unexpectedEOF), [])
  | n + 1, SockEvent.byte b :: inp, acc => readFullAux n inp (b :: acc)
  | _ + 1, SockEvent.fail e :: inp, acc =>
    (.error (if e = Err.eof ∧ acc.isEmpty = false then Err.unexpectedEOF else e), inp)

/-- The call `io.ReadFull(c.rawConn, buf)` with `len(buf) = n`. A buffer of
length 0 is filled without reading. -/
def RawConn.ReadFull (r : RawConn) (n : Nat) : Except Err (List Byte) × RawConn :=
  if n = 0 then (.ok [], r)
  else if r.closed then (.error Err.closed, r)
  else
    let res := readFullAux n r.input []
    (res.1, { r with input := res.2 })

/-- The call `c.rawConn.SetReadDeadline(time.Now().Add(d))`. -/
def RawConn.SetReadDeadline (r : RawConn) (d : Int) : Option Err × RawConn :=
  let r1 := { r with deadlines := r.deadlines ++ [d] }
  if r.closed then (some Err.closed, r1) else (r.deadlineErr, r1)

/-- The call `c.rawConn.Write(pkt)`. -/
def RawConn.Write (r : RawConn) (pkt : List Byte) : Option Err × RawConn :=
  if r.closed then (some Err.closed, r)
  else
    match r.writeErr with
    | some e => (some e, r)
    | none => (none, { r with written := r.written ++ [pkt] })

/-- The call `c.rawConn.Close()`. -/
def RawConn.Close (r : RawConn) : RawConn := { r with closed := true }

/-! ## The heartbeat timer -/

/-- A `time.Timer`: `active` while armed, `C` holds a tick that has been
delivered and not yet received. `resets` and `fired` are ghost counters. -/
structure Timer where
  active : Bool
  C : Bool
  resets : Nat
  fired : Nat
deriving DecidableEq, Repr

/-- The call `time.NewTimer(d)`. -/
def NewTimer (_d : Int) : Timer := { active := true, C := false, resets := 0, fired := 0 }

/-- The call `t.Stop()`. -/
def Timer.Stop (t : Timer) : Timer := { t with active := false }

/-- The call `t.Reset(d)`. -/
def Timer.Reset (t : Timer) (_d : Int) : Timer :=
  { t with active := true, resets := t.resets + 1 }

/-- Environment step: the duration of an armed timer elapses and the runtime
delivers a tick on `C`. A timer that is not armed does not fire. -/
def Timer.expire (t : Timer) : Timer :=
  if t.active then { t with active := false, C := true, fired := t.fired + 1 } else t

/-! ## `Conn` -/

/-- The struct `Conn` of `conn.go`, field for field. -/
structure Conn where
  sid : String
  rawConn : RawConn
  sendCh : List (List Byte)
  done : List Err
  hbTimer : Timer
  name : String
  messageCh : List Message
  hbInterval : Int
  hbTimeout : Int
deriving DecidableEq, Repr

/-- The function `NewConn` of `conn.go`. -/
def NewConn (c : RawConn) (hbInterval hbTimeout : Int) : Conn :=
  let conn : Conn :=
    { sid := "", rawConn := c, sendCh := [], done := [], hbTimer := NewTimer hbInterval,
      name := c.remoteAddr, messageCh := [], hbInterval := hbInterval, hbTimeout := hbTimeout }
  if conn.hbInterval = 0 then { conn with hbTimer := conn.hbTimer.Stop } else conn

/-- The method `Conn.Close`. -/
def Conn.Close (c : Conn) : Conn :=
  { c with hbTimer := c.hbTimer.Stop, rawConn := c.rawConn.Close }

/-- The capacity of `sendCh`, from `make(chan []byte, 100)` in `NewConn`. -/
def sendChCap : Nat := 100

/-- How a call of `Conn.SendMessage` ends: `Encode` failed and its error is
returned; or the packet went onto `sendCh` and `nil` is returned; or `sendCh`
is full and the caller waits at the send of line 67 with the packet in hand. -/
inductive SendResult where
  | failed (e : Err)
  | sent (c : Conn)
  | blocked (pkg : List Byte)
deriving DecidableEq, Repr

/-- The method `Conn.SendMessage`. `call` is the number of the `Encode` call.
The send `c.sendCh <- pkg` completes when fewer than 100 packets are pending and
blocks otherwise. -/
def Conn.SendMessage (k : Codec) (call : Nat) (c : Conn) (msg : Message) : SendResult :=
  match k.Encode call msg with
  | .error e => .failed e
  | .ok pkg =>
    if c.sendCh.length < sendChCap then .sent { c with sendCh := c.sendCh ++ [pkg] }
    else .blocked pkg

/-- How one iteration of a loop ends: with `continue` (or by falling off the
end of the body), or with a run-time panic. -/
inductive Outcome where
  | next (c : Conn)
  | panic (c : Conn)
deriving DecidableEq, Repr

/-- The connection an iteration leaves behind. -/
def Outcome.conn : Outcome → Conn
  | .next c => c
  | .panic c => c

/-- Lines 140-171 of `readCoroutine`: the size check, the payload read,
`Decode`, the timer reset and the delivery. `make([]byte, dataSize)` panics on a
negative size. -/
def readPayload (k : Codec) (c : Conn) (dataSize : Int) : Outcome :=
  if dataSize > 1000000 then
    .next { c with done := c.done ++ [Err.outOfMemory] }
  else if dataSize < 0 then
    .panic c
  else
    match c.rawConn.ReadFull dataSize.toNat with
    | (.error e, r) => .next { c with rawConn := r, done := c.done ++ [e] }
    | (.ok dataBuf, r) =>
      let c1 := { c with rawConn := r }
      match k.Decode dataBuf with
      | .error e => .next { c1 with done := c1.done ++ [e] }
      | .ok msg =>
        let c2 := if c1.hbInterval > 0 then
            { c1 with hbTimer := c1.hbTimer.Reset c1.hbInterval } else c1
        if msg.GetID = k.MsgHeartbeat then .next c2
        else .next { c2 with messageCh := c2.messageCh ++ [msg] }

/-- Lines 124-171 of `readCoroutine`: what the iteration does with the header
`buf` once `io.ReadFull` has filled it. -/
def processHeader (k : Codec) (c : Conn) (buf : List Byte) : Outcome :=
  let size := (Atoi buf).1
  if size = 0 then
    .next { c with done := c.done ++ [Err.dataHeader] }
  else
    match binaryReadLittleEndianInt32 buf with
    | .error e => .next { c with done := c.done ++ [e] }
    | .ok dataSize => readPayload k c dataSize

/-- Lines 116-171 of `readCoroutine`: the read of the 4-byte header and what
follows it. -/
def readFrame (k : Codec) (c : Conn) : Outcome :=
  match c.rawConn.ReadFull 4 with
  | (.error e, r) => .next { c with rawConn := r, done := c.done ++ [e] }
  | (.ok buf, r) => processHeader k { c with rawConn := r } buf

/-- One iteration of the `default` branch of `readCoroutine` (lines 107-171). -/
def readIteration (k : Codec) (c : Conn) : Outcome :=
  if c.hbInterval > 0 then
    match c.rawConn.SetReadDeadline c.hbTimeout with
    | (some e, r) => .next { c with rawConn := r, done := c.done ++ [e] }
    | (none, r) => readFrame k { c with rawConn := r }
  else readFrame k c

/-- The method `Conn.readCoroutine`, run for `iterations` passes through the
`default` branch before `ctx.Done()` is observed; the loop has no other exit
than that and a panic. -/
def readCoroutine (k : Codec) : Nat → Conn → Outcome
  | 0, c => .next c
  | n + 1, c =>
    match readIteration k c with
    | .next c1 => readCoroutine k n c1
    | .panic c1 => .panic c1

/-- Which case of the `select` of `writeCoroutine` is taken. -/
inductive WriteSelect where
  | ctxDone
  | pkt
  | tick
deriving DecidableEq, Repr

/-- The connection and the ghost state of one running connection:
`encodeCalls` numbers the calls of `Encode`, `heartbeats` counts the
`MsgHeartbeat` messages built by `writeCoroutine`, `waiting` holds the packets
of the `SendMessage` calls of the service that wait on the full `sendCh`, oldest
first, `writeExited`, `writeBlocked` and `panicked` record that the write unit
returned, that it waits on its own full `sendCh` (line 93), and that the read
unit panicked. -/
structure ConnRun where
  conn : Conn
  encodeCalls : Nat
  heartbeats : Nat
  waiting : List (List Byte)
  writeExited : Bool
  writeBlocked : Bool
  panicked : Bool
deriving DecidableEq, Repr

/-- One pass through the `select` of `writeCoroutine` (lines 76-94) taking the
case `sel`; a case whose channel is empty cannot be taken and leaves the unit
waiting. A `nil` packet is the empty list. When the unit takes a packet from
`sendCh`, the packet of the oldest waiting sender enters the channel. -/
def writeIteration (k : Codec) (sel : WriteSelect) (s : ConnRun) : ConnRun :=
  match sel with
  | .ctxDone => { s with writeExited := true }
  | .pkt =>
    match s.conn.sendCh with
    | [] => s
    | pkt :: rest =>
      let c := { s.conn with sendCh := rest ++ s.waiting.take 1 }
      let s1 := { s with waiting := s.waiting.drop 1 }
      if pkt = [] then { s1 with conn := c }
      else
        match c.rawConn.Write pkt with
        | (some e, r) => { s1 with conn := { c with rawConn := r, done := c.done ++ [e] } }
        | (none, r) => { s1 with conn := { c with rawConn := r } }
  | .tick =>
    if s.conn.hbTimer.C then
      let c := { s.conn with hbTimer := { s.conn.hbTimer with C := false } }
      let hbMessage := NewMessage k.MsgHeartbeat []
      let s1 := { s with conn := c, encodeCalls := s.encodeCalls + 1,
                         heartbeats := s.heartbeats + 1 }
      match c.SendMessage k s.encodeCalls hbMessage with
      | .failed _ => s1
      | .sent c1 => { s1 with conn := c1 }
      | .blocked _ => { s1 with writeBlocked := true }
    else s

/-- What can happen to a running connection, one step at a time. -/
inductive ConnStep where
  | read
  | write (sel : WriteSelect)
  | expire
  | send (msg : Message)
  | close
deriving DecidableEq, Repr

/-- One step of a running connection: an iteration of the read unit, a pass of
the write unit, the expiry of the heartbeat timer, a `SendMessage` call by the
service, or `Close`. Nothing runs after a panic, and the write unit does not run
after it has returned or while it waits on its own `sendCh`. -/
def ConnRun.step (k : Codec) (s : ConnRun) : ConnStep → ConnRun
  | .read =>
    if s.panicked then s
    else
      match readIteration k s.conn with
      | .next c => { s with conn := c }
      | .panic c => { s with conn := c, panicked := true }
  | .write sel =>
    if s.panicked || s.writeExited || s.writeBlocked then s else writeIteration k sel s
  | .expire =>
    if s.panicked then s
    else { s with conn := { s.conn with hbTimer := s.conn.hbTimer.expire } }
  | .send msg =>
    if s.panicked then s
    else
      match s.conn.SendMessage k s.encodeCalls msg with
      | .failed _ => { s with encodeCalls := s.encodeCalls + 1 }
      | .sent c => { s with conn := c, encodeCalls := s.encodeCalls + 1 }
      | .blocked pkg =>
        { s with waiting := s.waiting ++ [pkg], encodeCalls := s.encodeCalls + 1 }
  | .close =>
    if s.panicked then s else { s with conn := s.conn.Close }

/-- A run of a connection: the steps taken in order. -/
def ConnRun.run (k : Codec) (s : ConnRun) (steps : List ConnStep) : ConnRun :=
  steps.foldl (ConnRun.step k) s

/-- The connection `NewConn` returns, about to be run. -/
def ConnRun.start (c : RawConn) (hbInterval hbTimeout : Int) : ConnRun :=
  { conn := NewConn c hbInterval hbTimeout, encodeCalls := 0, heartbeats := 0,
    waiting := [], writeExited := false, writeBlocked := false, panicked := false }

/-! ## `SocketService` -/

/-- Modelled from the spec: the type `Session` and `NewSession` are declared
outside the given sources; the spec describes a session as a generated session
ID, an optional user ID and exactly one owned connection. `conn` is the pointer
`*Conn`. -/
structure Session where
  sid : String
  uid : String
  conn : Nat
deriving DecidableEq, Repr

/-- Accessor `Session.GetSessionID`. -/
def Session.GetSessionID (s : Session) : String := s.sid

/-- Accessor `Session.GetConn`. -/
def Session.GetConn (s : Session) : Nat := s.conn

/-- Modelled from the spec: the status constants `STInited`, `STRunning` and
`STStop` are declared outside the given sources; the spec lists three distinct
service states, Created, Running and Stopped. -/
def STInited : Int := 0

/-- Modelled from the spec: the service state Running, see `STInited`. -/
def STRunning : Int := 1

/-- Modelled from the spec: the service state Stopped, see `STInited`. -/
def STStop : Int := 2

/-- The struct `SocketService` of `service.go`. The callbacks act on the state
`σ` of the application; `none` is the `nil` callback. `sessions` is the
`sync.Map` as its list of entries, `listenerOpen` the state of `listener`. -/
structure SocketService (σ : Type) where
  onMessage : Option (Session → Message → σ → σ)
  onConnect : Option (Session → σ → σ)
  onDisconnect : Option (Session → Err → σ → σ)
  sessions : List (String × Session)
  hbInterval : Int
  hbTimeout : Int
  laddr : String
  status : Int
  listenerOpen : Bool
  stopCh : List Err

/-- The service `NewSocketService` returns when `net.Listen` succeeds. -/
def NewSocketService (σ : Type) (laddr : String) : SocketService σ :=
  { onMessage := none, onConnect := none, onDisconnect := none, sessions := [],
    hbInterval := 0, hbTimeout := 0, laddr := laddr, status := STInited,
    listenerOpen := true, stopCh := [] }

/-- The call `sessions.Load(sid)` of `sync.Map`. -/
def mapLoad (m : List (String × Session)) (sid : String) : Option Session :=
  (m.find? (fun kv => kv.1 = sid)).map (fun kv => kv.2)

/-- The call `sessions.Delete(sid)` of `sync.Map`. -/
def mapDelete (m : List (String × Session)) (sid : String) : List (String × Session) :=
  m.filter (fun kv => kv.1 ≠ sid)

/-- The call `sessions.Store(sid, v)` of `sync.Map`. -/
def mapStore (m : List (String × Session)) (sid : String) (v : Session) :
    List (String × Session) :=
  mapDelete m sid ++ [(sid, v)]

/-- The method `SocketService.SetHeartBeat`: the error returned, if any, and
the service afterwards. -/
def SocketService.SetHeartBeat {σ : Type} (s : SocketService σ) (hbInterval hbTimeout : Int) :
    Option Err × SocketService σ :=
  if s.status = STRunning then (some Err.serviceRunning, s)
  else (none, { s with hbInterval := hbInterval, hbTimeout := hbTimeout })

/-- The first part of `SocketService.Serv`, up to the loop that waits on
`stopCh`. -/
def SocketService.ServStart {σ : Type} (s : SocketService σ) : SocketService σ :=
  { s with status := STRunning }

/-- The end of `SocketService.Serv`: a value arrives on `stopCh` (sent by
`Stop` or by `acceptHandler`), the loop returns and the deferred function
runs. -/
def SocketService.ServReturn {σ : Type} (s : SocketService σ) : SocketService σ :=
  { s with status := STStop, listenerOpen := false }

/-- The operations on a service that touch its status or its heartbeat
configuration. -/
inductive ServiceOp where
  | servStart
  | servReturn
  | setHeartBeat (hbInterval hbTimeout : Int)
deriving DecidableEq, Repr

/-- The service after one operation. -/
def SocketService.apply {σ : Type} (s : SocketService σ) : ServiceOp → SocketService σ
  | .servStart => s.ServStart
  | .servReturn => s.ServReturn
  | .setHeartBeat i t => (s.SetHeartBeat i t).2

/-- The service after a sequence of operations. -/
def SocketService.applyAll {σ : Type} (s : SocketService σ) (ops : List ServiceOp) :
    SocketService σ :=
  ops.foldl SocketService.apply s

/-- How a `SendMessage` call made by the service ended: it returned, with an
error or `nil`, or it waits on the full `sendCh`. -/
inductive CallResult where
  | returned (err : Option Err)
  | blocked
deriving DecidableEq, Repr

/-- A `SendMessage` call made by the service: the connection, the message and
how the call ended. -/
structure SendCall where
  conn : Nat
  msg : Message
  result : CallResult
deriving DecidableEq, Repr

/-- A callback invocation made by the service. -/
inductive Call where
  | connect (s : Session)
  | message (s : Session) (m : Message)
  | disconnect (s : Session) (e : Err)
deriving DecidableEq, Repr

/-- The service together with what its pointers refer to: the heap of
connections and the application state. `encodeCalls` (the number of `Encode`
calls made), `sends` (the `SendMessage` calls made by `Unicast` and `Broadcast`)
and `calls` (the callback invocations made) are ghost logs; `waiting` is the
connection and the packet of the send of line 67 at which the caller of
`Unicast` or `Broadcast` waits, if it does. -/
structure World (σ : Type) where
  svc : SocketService σ
  heap : Nat → Conn
  app : σ
  encodeCalls : Nat
  sends : List SendCall
  calls : List Call
  waiting : Option (Nat × List Byte)

/-- The statement `session.GetConn().SendMessage(msg)` of `Unicast` and
`Broadcast`: the world afterwards, and whether the call returned. -/
def World.sendTo {σ : Type} (k : Codec) (w : World σ) (session : Session) (msg : Message) :
    World σ × Bool :=
  match (w.heap session.GetConn).SendMessage k w.encodeCalls msg with
  | .failed e =>
    ({ w with encodeCalls := w.encodeCalls + 1,
              sends := w.sends ++
                [{ conn := session.GetConn, msg := msg, result := .returned (some e) }] }, true)
  | .sent c =>
    ({ w with heap := Function.update w.heap session.GetConn c,
              encodeCalls := w.encodeCalls + 1,
              sends := w.sends ++
                [{ conn := session.GetConn, msg := msg, result := .returned none }] }, true)
  | .blocked pkg =>
    ({ w with encodeCalls := w.encodeCalls + 1,
              sends := w.sends ++ [{ conn := session.GetConn, msg := msg, result := .blocked }],
              waiting := some (session.GetConn, pkg) }, false)

/-- The method `SocketService.Unicast`. It returns nothing; a failed
`SendMessage` is logged only. -/
def Unicast {σ : Type} (k : Codec) (w : World σ) (sid : String) (msg : Message) : World σ :=
  match mapLoad w.svc.sessions sid with
  | some session => (w.sendTo k session msg).1
  | none => w

/-- The `Range` of `Broadcast` over the entries of the registry: the callback
calls `SendMessage` and returns `true` whether or not the call failed, so the
next entry is visited as soon as the call has returned; while a call waits on a
full `sendCh`, the entries after it are not visited. -/
def rangeSend {σ : Type} (k : Codec) (msg : Message) :
    List (String × Session) → World σ → World σ
  | [], w => w
  | kv :: rest, w =>
    match w.sendTo k kv.2 msg with
    | (w1, true) => rangeSend k msg rest w1
    | (w1, false) => w1

/-- The method `SocketService.Broadcast`. -/
def Broadcast {σ : Type} (k : Codec) (w : World σ) (msg : Message) : World σ :=
  rangeSend k msg w.svc.sessions w

/-- What a connection delivers to its handler: an error on `done` or a message
on `messageCh`. -/
inductive Event where
  | done (e : Err)
  | message (m : Message)
deriving DecidableEq, Repr

/-- The `for`/`select` loop of `connectHandler` (lines 137-151) over the events
the connection delivers, in the order the handler receives them. The result
tells whether the loop returned; `false` means that the handler is waiting for
the next event. -/
def dispatchLoop {σ : Type} (session : Session) : List Event → World σ → World σ × Bool
  | [], w => (w, false)
  | Event.done err :: _, w =>
    match w.svc.onDisconnect with
    | some f => ({ w with app := f session err w.app,
                          calls := w.calls ++ [Call.disconnect session err] }, true)
    | none => (w, true)
  | Event.message msg :: rest, w =>
    match w.svc.onMessage with
    | some f => dispatchLoop session rest
        { w with app := f session msg w.app, calls := w.calls ++ [Call.message session msg] }
    | none => dispatchLoop session rest w

/-- Lines 118-120 of `connectHandler`: the new `Conn` is placed at address
`ptr` and the session is stored in the registry under its ID. -/
def World.register {σ : Type} (w : World σ) (c : RawConn) (session : Session) : World σ :=
  { w with heap := Function.update w.heap session.GetConn
             (NewConn c w.svc.hbInterval w.svc.hbTimeout),
           svc := { w.svc with
             sessions := mapStore w.svc.sessions session.GetSessionID session } }

/-- Lines 133-135 of `connectHandler`: the connect callback, if there is
one. -/
def World.notifyConnect {σ : Type} (w : World σ) (session : Session) : World σ :=
  match w.svc.onConnect with
  | some f => { w with app := f session w.app, calls := w.calls ++ [Call.connect session] }
  | none => w

/-- The deferred function of `connectHandler` (lines 124-128): the connection
is closed and the session deleted from the registry. -/
def World.unwind {σ : Type} (w : World σ) (session : Session) : World σ :=
  { w with heap := Function.update w.heap session.GetConn (w.heap session.GetConn).Close,
           svc := { w.svc with
             sessions := mapDelete w.svc.sessions session.GetSessionID } }

/-- The method `SocketService.connectHandler` for the accepted socket `c`.
`ptr` is the address of the new `Conn`, `sid` the ID `NewSession` generates and
`events` what the two units of the connection deliver. The result tells whether
the handler returned. -/
def connectHandler {σ : Type} (w : World σ) (c : RawConn) (ptr : Nat) (sid : String)
    (events : List Event) : World σ × Bool :=
  let session : Session := { sid := sid, uid := "", conn := ptr }
  match dispatchLoop session events ((w.register c session).notifyConnect session) with
  | (w3, true) => (w3.unwind session, true)
  | (w3, false) => (w3, false)

/-! ## Concrete inputs -/

/-- The connection `c` with its socket open, `SetReadDeadline` succeeding, and
`bytes` followed by `rest` as what the peer delivers next. -/
def Conn.delivering (c : Conn) (bytes : List Byte) (rest : List SockEvent) : Conn :=
  { c with rawConn := { c.rawConn with
      closed := false, deadlineErr := none, input := bytes.map SockEvent.byte ++ rest } }

/-- A codec to evaluate the definitions with: a packet is the kind in one byte
followed by the payload, kind 0 is the heartbeat, and `Encode` refuses payloads
of more than 1,000,000 bytes. -/
def sampleCodec : Codec :=
  { Encode := fun _ m =>
      if m.data.length > 1000000 then .error (Err.other "too large")
      else .ok (Fin.ofNat m.id :: m.data),
    Decode := fun pkt =>
      match pkt with
      | [] => .error (Err.other "empty")
      | b :: rest => .ok { id := b.val, data := rest },
    MsgHeartbeat := 0 }

/-- A socket with nothing to deliver. -/
def sampleSocket : RawConn :=
  { remoteAddr := "10.0.0.1:4000", input := [], closed := false, deadlineErr := none,
    writeErr := none, written := [], deadlines := [] }

/-- The packet of `Message{kind = 1, payload = "hello"}` under `sampleCodec`. -/
def helloPacket : List Byte := [1, 104, 101, 108, 108, 111]

/-- A registry of two sessions, on the connections at addresses 1 and 2. -/
def sampleSessions : List (String × Session) :=
  [("s1", { sid := "s1", uid := "", conn := 1 }), ("s2", { sid := "s2", uid := "u2", conn := 2 })]

/-- A running service with `sampleSessions` registered; its callbacks count
the invocations in the application state. -/
def sampleService : SocketService Nat :=
  { onMessage := some (fun _ _ a => a + 1), onConnect := none,
    onDisconnect := some (fun _ _ a => a + 100), sessions := sampleSessions,
    hbInterval := 3, hbTimeout := 9, laddr := ":9000", status := STRunning,
    listenerOpen := true, stopCh := [] }

/-- A world around `sampleService`: every address holds a fresh connection. -/
def sampleWorld : World Nat :=
  { svc := sampleService, heap := fun _ => NewConn sampleSocket 3 9, app := 0,
    encodeCalls := 0, sends := [], calls := [], waiting := none }

/-- A codec whose `Encode` fails at its second call (the call numbered 1) and
otherwise behaves as `sampleCodec`. -/
def failingOnceCodec : Codec :=
  { sampleCodec with
    Encode := fun call m =>
      if call = 1 then .error (Err.other "serialization") else sampleCodec.Encode call m }

/-- A registry of three sessions, on the connections at addresses 1, 2, 3. -/
def threeSessions : List (String × Session) :=
  [("s1", { sid := "s1", uid := "", conn := 1 }), ("s2", { sid := "s2", uid := "u2", conn := 2 }),
   ("s3", { sid := "s3", uid := "", conn := 3 })]

/-- A world like `sampleWorld` with `threeSessions` registered. -/
def threeWorld : World Nat :=
  { sampleWorld with svc := { sampleService with sessions := threeSessions } }

/-- The world `threeWorld` with 100 packets pending on the `sendCh` of the
connection at address 1, whose write unit takes none of them (its peer does not
read, so that `rawConn.Write` does not return). -/
def stalledWorld : World Nat :=
  { threeWorld with
    heap := fun p =>
      if p = 1 then { NewConn sampleSocket 3 9 with sendCh := List.replicate 100 helloPacket }
      else NewConn sampleSocket 3 9 }

/-- The order in which the handler receives what is pending on `done` and on
`messageCh`: at each `select` the schedule says which channel is taken (`true`
for `done`), the other one being taken when the chosen one is empty. -/
def received : List Bool → List Err → List Message → List Event
  | [], _, _ => []
  | _ :: _, [], [] => []
  | true :: s, e :: es, ms => Event.done e :: received s es ms
  | true :: s, [], m :: ms => Event.message m :: received s [] ms
  | false :: s, es, m :: ms => Event.message m :: received s es ms
  | false :: s, e :: es, [] => Event.done e :: received s es []

/-! ## Predicates used in the statements -/

/-- The state of a connection whose heartbeat is disabled: interval 0, timer
neither armed nor holding a tick, never reset and never fired, no read deadline
beyond those in `deadlines0`, no heartbeat built. -/
def HeartbeatOff (deadlines0 : List Int) (s : ConnRun) : Prop :=
  s.conn.hbInterval = 0 ∧ s.conn.hbTimer.active = false ∧ s.conn.hbTimer.C = false ∧
    s.conn.hbTimer.resets = 0 ∧ s.conn.hbTimer.fired = 0 ∧
    s.conn.rawConn.deadlines = deadlines0 ∧ s.heartbeats = 0

/-- The error `SendMessage` returns when its `Encode` call is the one numbered
`call` and the call returns: the error of `Encode`, if any. -/
def encodeErr (k : Codec) (call : Nat) (msg : Message) : Option Err :=
  match k.Encode call msg with
  | .error e => some e
  | .ok _ => none

/-- The connection after a `SendMessage` call that returned, its `Encode` call
being the one numbered `call`: with the packet appended to `sendCh` if `Encode`
succeeded, unchanged if it failed. -/
def afterSend (k : Codec) (call : Nat) (msg : Message) (c : Conn) : Conn :=
  match k.Encode call msg with
  | .error _ => c
  | .ok pkg => { c with sendCh := c.sendCh ++ [pkg] }

/-- The invocations of `onConnect` made for a new session: one if a callback
is registered. -/
def connectCalls {σ : Type} (svc : SocketService σ) (session : Session) : List Call :=
  match svc.onConnect with
  | some _ => [Call.connect session]
  | none => []

/-- The invocations of `onMessage` made for the messages `msgs`: one each, in
order, if a callback is registered. -/
def messageCalls {σ : Type} (svc : SocketService σ) (session : Session)
    (msgs : List Message) : List Call :=
  match svc.onMessage with
  | some _ => msgs.map (Call.message session)
  | none => []

/-- The application state after `onConnect`. -/
def appAfterConnect {σ : Type} (svc : SocketService σ) (session : Session) (a : σ) : σ :=
  match svc.onConnect with
  | some f => f session a
  | none => a

/-- The application state after `onMessage` on each of `msgs` in order. -/
def appAfterMessages {σ : Type} (svc : SocketService σ) (session : Session)
    (msgs : List Message) (a : σ) : σ :=
  match svc.onMessage with
  | some f => msgs.foldl (fun acc m => f session m acc) a
  | none => a

/-- Whether the callback invocation `call` is something else than a message
of kind `hb` handed to `onMessage`. -/
def Call.notHeartbeat (hb : Nat) : Call → Bool
  | Call.message _ m => m.GetID != hb
  | _ => true

/-- An ASCII decimal digit, `'0'` to `'9'`. -/
def isDigit (b : Byte) : Prop := 48 ≤ b.val ∧ b.val ≤ 57

/-- An ASCII sign, `'+'` or `'-'`. -/
def isSign (b : Byte) : Prop := b.val = 43 ∨ b.val = 45

instance (b : Byte) : Decidable (isDigit b) := by unfold isDigit; infer_instance

instance (b : Byte) : Decidable (isSign b) := by unfold isSign; infer_instance

/-! ## The header: `Atoi` against `binary.Read` -/

theorem atoiLoop_digits (l : List Byte) :
    ∀ (n m : Nat), atoiLoop n l = some m → ∀ ch ∈ l, isDigit ch := by
  induction l with
  | nil => intro n m _ ch hch; simp at hch
  | cons a rest ih =>
    intro n m h ch hch
    unfold atoiLoop at h
    simp only at h
    split at h
    · exact absurd h (by simp)
    · rename_i hd
      rcases List.mem_cons.mp hch with rfl | hmem
      · have := ch.isLt
        unfold isDigit
        omega
      · exact ih _ _ h ch hmem

theorem atoi_four_digits (b0 b1 b2 b3 : Byte) (h : (Atoi [b0, b1, b2, b3]).1 ≠ 0) :
    (isSign b0 ∨ isDigit b0) ∧ isDigit b1 ∧ isDigit b2 ∧ isDigit b3 := by
  unfold Atoi at h
  simp only [List.length_cons, List.length_nil] at h
  rw [if_pos (by omega)] at h
  by_cases hs : b0.val = 45 ∨ b0.val = 43
  · rw [if_pos hs] at h
    simp only [List.length_cons, List.length_nil] at h
    rw [if_neg (by omega)] at h
    cases hl : atoiLoop 0 [b1, b2, b3] with
    | none => rw [hl] at h; simp at h
    | some n =>
      have hd := atoiLoop_digits _ _ _ hl
      refine ⟨Or.inl ?_, hd b1 (by simp), hd b2 (by simp), hd b3 (by simp)⟩
      unfold isSign
      omega
  · rw [if_neg hs] at h
    simp only [List.length_cons, List.length_nil] at h
    rw [if_neg (by omega)] at h
    cases hl : atoiLoop 0 [b0, b1, b2, b3] with
    | none => rw [hl] at h; simp at h
    | some n =>
      have hd := atoiLoop_digits _ _ _ hl
      exact ⟨Or.inr (hd b0 (by simp)), hd b1 (by simp), hd b2 (by simp), hd b3 (by simp)⟩

theorem leUint32_ge_of_digit (b0 b1 b2 b3 : Byte) (h : isDigit b3) :
    805306368 ≤ leUint32 [b0, b1, b2, b3] ∧ leUint32 [b0, b1, b2, b3] < 2147483648 := by
  have h0 := b0.isLt
  have h1 := b1.isLt
  have h2 := b2.isLt
  unfold isDigit at h
  simp only [leUint32]
  omega

theorem dataSize_of_digit (b0 b1 b2 b3 : Byte) (h : isDigit b3) :
    binaryReadLittleEndianInt32 [b0, b1, b2, b3] = .ok ((leUint32 [b0, b1, b2, b3] : Nat) : Int)
      ∧ (805306368 : Int) ≤ ((leUint32 [b0, b1, b2, b3] : Nat) : Int) := by
  obtain ⟨hlo, hhi⟩ := leUint32_ge_of_digit b0 b1 b2 b3 h
  constructor
  · simp only [binaryReadLittleEndianInt32, toInt32]
    have hm : leUint32 [b0, b1, b2, b3] % 4294967296 = leUint32 [b0, b1, b2, b3] :=
      Nat.mod_eq_of_lt (by omega)
    rw [hm, if_pos hhi]
  · exact_mod_cast hlo

theorem processHeader_four (k : Codec) (c : Conn) (b0 b1 b2 b3 : Byte) :
    processHeader k c [b0, b1, b2, b3] =
      .next { c with done := c.done ++
        [if (Atoi [b0, b1, b2, b3]).1 = 0 then Err.dataHeader else Err.outOfMemory] } := by
  by_cases hz : (Atoi [b0, b1, b2, b3]).1 = 0
  · simp only [processHeader, hz, if_true]
  · obtain ⟨_, _, _, hd3⟩ := atoi_four_digits b0 b1 b2 b3 hz
    obtain ⟨hrd, hge⟩ := dataSize_of_digit b0 b1 b2 b3 hd3
    simp only [processHeader, hz, if_false, hrd, readPayload]
    rw [if_pos (by omega)]

/-! ## The read unit -/

theorem readFullAux_length (n : Nat) :
    ∀ (inp : List SockEvent) (acc buf : List Byte) (rest : List SockEvent),
      readFullAux n inp acc = (.ok buf, rest) → buf.length = acc.length + n := by
  induction n with
  | zero =>
    intro inp acc buf rest h
    simp only [readFullAux, Prod.mk.injEq, Except.ok.injEq] at h
    rw [← h.1]; simp
  | succ n ih =>
    intro inp acc buf rest h
    match inp with
    | [] => simp [readFullAux] at h
    | SockEvent.byte b :: inp =>
      simp only [readFullAux] at h
      have := ih _ _ _ _ h
      simp only [List.length_cons] at this
      omega
    | SockEvent.fail e :: inp => simp [readFullAux] at h

/-- The socket after `io.ReadFull` differs from the one before in its pending
input only. -/
theorem ReadFull_frame (r : RawConn) (n : Nat) :
    ∃ inp, (r.ReadFull n).2 = { r with input := inp } := by
  unfold RawConn.ReadFull
  by_cases h0 : n = 0
  · exact ⟨r.input, by rw [if_pos h0]⟩
  · by_cases hc : r.closed = true
    · exact ⟨r.input, by rw [if_neg h0, if_pos hc]⟩
    · exact ⟨(readFullAux n r.input []).2, by rw [if_neg h0, if_neg hc]⟩

theorem ReadFull_four_length (r r1 : RawConn) (buf : List Byte)
    (h : r.ReadFull 4 = (.ok buf, r1)) : buf.length = 4 := by
  unfold RawConn.ReadFull at h
  simp only [OfNat.ofNat_ne_zero, if_false] at h
  split at h
  · simp at h
  · simp only [Prod.mk.injEq] at h
    have := readFullAux_length 4 r.input [] buf (readFullAux 4 r.input []).2
      (by rw [← h.1])
    simpa using this

theorem ReadFull_four_bytes (r : RawConn) (b0 b1 b2 b3 : Byte) (rest : List SockEvent)
    (hc : r.closed = false)
    (hin : r.input = SockEvent.byte b0 :: SockEvent.byte b1 :: SockEvent.byte b2
      :: SockEvent.byte b3 :: rest) :
    r.ReadFull 4 = (.ok [b0, b1, b2, b3], { r with input := rest }) := by
  simp [RawConn.ReadFull, hc, hin, readFullAux]

/-- Every pass through lines 116-171 ends by sending exactly one error on
`done`; it changes nothing else of the connection but the pending input of the
socket. -/
theorem readFrame_reports (k : Codec) (c : Conn) :
    ∃ inp e, readFrame k c =
      .next { c with rawConn := { c.rawConn with input := inp }, done := c.done ++ [e] } := by
  unfold readFrame
  obtain ⟨inp, hinp⟩ := ReadFull_frame c.rawConn 4
  cases hres : c.rawConn.ReadFull 4 with
  | mk res r1 =>
    rw [hres] at hinp
    simp only at hinp
    subst hinp
    cases res with
    | error e => exact ⟨inp, e, rfl⟩
    | ok buf =>
      have hlen := ReadFull_four_length _ _ _ hres
      match buf, hlen with
      | [b0, b1, b2, b3], _ =>
        exact ⟨inp, _, processHeader_four k _ b0 b1 b2 b3⟩

/-- Every iteration of the read unit ends by sending exactly one error on
`done`; the socket changes in its pending input and in the deadline set, and
nothing else of the connection changes. -/
theorem readIteration_reports (k : Codec) (c : Conn) :
    ∃ inp e, readIteration k c =
      .next { c with
        rawConn := { c.rawConn with
          input := inp,
          deadlines := if c.hbInterval > 0 then c.rawConn.deadlines ++ [c.hbTimeout]
            else c.rawConn.deadlines },
        done := c.done ++ [e] } := by
  unfold readIteration
  by_cases hb : c.hbInterval > 0
  · simp only [hb, if_true]
    cases hdl : c.rawConn.SetReadDeadline c.hbTimeout with
    | mk res r =>
      have hr : r = { c.rawConn with deadlines := c.rawConn.deadlines ++ [c.hbTimeout] } := by
        have := congrArg Prod.snd hdl
        unfold RawConn.SetReadDeadline at this
        simp only at this
        split at this <;> exact this.symm
      subst hr
      cases res with
      | some e => exact ⟨c.rawConn.input, e, rfl⟩
      | none =>
        obtain ⟨inp, e, h⟩ := readFrame_reports k
          { c with rawConn := { c.rawConn with deadlines := c.rawConn.deadlines ++ [c.hbTimeout] } }
        exact ⟨inp, e, h⟩
  · simp only [hb, if_false]
    obtain ⟨inp, e, h⟩ := readFrame_reports k c
    exact ⟨inp, e, h⟩

/-- The read unit never panics and never touches `messageCh`, the heartbeat
timer or the heartbeat configuration, however long it runs. -/
theorem readCoroutine_delivers_nothing (k : Codec) (n : Nat) :
    ∀ c : Conn, ∃ c1, readCoroutine k n c = .next c1 ∧ c1.messageCh = c.messageCh
      ∧ c1.hbTimer = c.hbTimer ∧ c1.hbInterval = c.hbInterval ∧ c1.hbTimeout = c.hbTimeout
      ∧ c1.sendCh = c.sendCh ∧ c1.done.length = c.done.length + n := by
  induction n with
  | zero => intro c; exact ⟨c, rfl, rfl, rfl, rfl, rfl, rfl, rfl⟩
  | succ n ih =>
    intro c
    obtain ⟨inp, e, h⟩ := readIteration_reports k c
    obtain ⟨c1, h1, hm, ht, hi, ho, hs, hd⟩ := ih
      { c with
        rawConn := { c.rawConn with
          input := inp,
          deadlines := if c.hbInterval > 0 then c.rawConn.deadlines ++ [c.hbTimeout]
            else c.rawConn.deadlines },
        done := c.done ++ [e] }
    refine ⟨c1, ?_, hm, ht, hi, ho, hs, ?_⟩
    · simp only [readCoroutine, h]
      exact h1
    · rw [hd]; simp; omega

theorem readFrame_codec_irrelevant (k k1 : Codec) (c : Conn) :
    readFrame k1 c = readFrame k c := by
  unfold readFrame
  cases hres : c.rawConn.ReadFull 4 with
  | mk res r1 =>
    cases res with
    | error e => rfl
    | ok buf =>
      have hlen := ReadFull_four_length _ _ _ hres
      match buf, hlen with
      | [b0, b1, b2, b3], _ =>
        simp only [processHeader_four]

theorem readIteration_codec_irrelevant (k k1 : Codec) (c : Conn) :
    readIteration k1 c = readIteration k c := by
  unfold readIteration
  split
  · split
    · rfl
    · exact readFrame_codec_irrelevant k k1 _
  · exact readFrame_codec_irrelevant k k1 _

theorem readCoroutine_codec_irrelevant (k k1 : Codec) (n : Nat) :
    ∀ c : Conn, readCoroutine k1 n c = readCoroutine k n c := by
  induction n with
  | zero => intro c; rfl
  | succ n ih =>
    intro c
    simp only [readCoroutine, readIteration_codec_irrelevant k k1 c]
    cases readIteration k c with
    | next c1 => exact ih c1
    | panic c1 => rfl

/-- The iteration of the read unit on a connection whose socket delivers the
header `b0 b1 b2 b3` next. -/
theorem readIteration_header (k : Codec) (c : Conn) (b0 b1 b2 b3 : Byte)
    (more : List Byte) (rest : List SockEvent) :
    readIteration k (c.delivering ([b0, b1, b2, b3] ++ more) rest) =
      .next { c.delivering more rest with
        rawConn := { (c.delivering more rest).rawConn with
          deadlines := if c.hbInterval > 0 then c.rawConn.deadlines ++ [c.hbTimeout]
            else c.rawConn.deadlines },
        done := c.done ++
          [if (Atoi [b0, b1, b2, b3]).1 = 0 then Err.dataHeader else Err.outOfMemory] } := by
  unfold readIteration
  by_cases hb : c.hbInterval > 0
  · have hb1 : (c.delivering ([b0, b1, b2, b3] ++ more) rest).hbInterval > 0 := hb
    rw [if_pos hb1, if_pos hb]
    simp only [Conn.delivering, RawConn.SetReadDeadline, Bool.false_eq_true, if_false, readFrame]
    rw [ReadFull_four_bytes _ b0 b1 b2 b3 (more.map SockEvent.byte ++ rest) rfl (by simp)]
    simp only [processHeader_four]
  · have hb1 : ¬ (c.delivering ([b0, b1, b2, b3] ++ more) rest).hbInterval > 0 := hb
    rw [if_neg hb1, if_neg hb]
    simp only [Conn.delivering, readFrame]
    rw [ReadFull_four_bytes _ b0 b1 b2 b3 (more.map SockEvent.byte ++ rest) rfl (by simp)]
    simp only [processHeader_four]

/-- C10: whatever the 4 bytes of a header are, the iteration that has read
them ends by sending one error on `done` before any payload is read: either
`Atoi` gives 0 and the error is "data header error", or the bytes are an
optionally signed decimal string, the last byte is a digit, the little-endian
`dataSize` is at least 0x30000000 and the error is "out of memory". Hence, for
every run of the read unit, the result does not depend on the codec (`Decode` is
not called), there is no panic, and `messageCh` and the heartbeat timer are as
they were. -/
theorem header_always_rejected (k : Codec) (c : Conn) (b0 b1 b2 b3 : Byte) :
    (((Atoi [b0, b1, b2, b3]).1 = 0 ∧
        processHeader k c [b0, b1, b2, b3] = .next { c with done := c.done ++ [Err.dataHeader] })
      ∨ ((Atoi [b0, b1, b2, b3]).1 ≠ 0 ∧
        ((isSign b0 ∨ isDigit b0) ∧ isDigit b1 ∧ isDigit b2 ∧ isDigit b3) ∧
        (∃ dataSize : Int, binaryReadLittleEndianInt32 [b0, b1, b2, b3] = .ok dataSize ∧
          805306368 ≤ dataSize ∧ 1000000 < dataSize) ∧
        processHeader k c [b0, b1, b2, b3] =
          .next { c with done := c.done ++ [Err.outOfMemory] }))
    ∧ (∀ (n : Nat), ∃ c1, readCoroutine k n c = .next c1 ∧ c1.messageCh = c.messageCh ∧
        c1.hbTimer = c.hbTimer ∧ ∀ k1 : Codec, readCoroutine k1 n c = .next c1) := by
  refine ⟨?_, ?_⟩
  · by_cases hz : (Atoi [b0, b1, b2, b3]).1 = 0
    · left
      refine ⟨hz, ?_⟩
      rw [processHeader_four, if_pos hz]
    · right
      have hd := atoi_four_digits b0 b1 b2 b3 hz
      obtain ⟨hrd, hge⟩ := dataSize_of_digit b0 b1 b2 b3 hd.2.2.2
      refine ⟨hz, hd, ⟨_, hrd, hge, by omega⟩, ?_⟩
      rw [processHeader_four, if_neg hz]
  · intro n
    obtain ⟨c1, h1, hm, ht, _⟩ := readCoroutine_delivers_nothing k n c
    exact ⟨c1, h1, hm, ht, fun k1 => by rw [readCoroutine_codec_irrelevant k k1 n c, h1]⟩

/-- C6: when the socket delivers a header whose declared length exceeds
1,000,000, read in network byte order or as the little-endian `int32` that the
code computes, the iteration sends exactly one error on `done` ("data header
error" or "out of memory"), takes the 4 header bytes from the socket and nothing
more, leaves `messageCh` and the timer as they were, and ends with `continue`. -/
theorem oversized_header_reported (k : Codec) (c : Conn) (b0 b1 b2 b3 : Byte)
    (more : List Byte) (rest : List SockEvent)
    (hbig : 1000000 < specDeclaredLength [b0, b1, b2, b3] ∨
      (1000000 : Int) < toInt32 (leUint32 [b0, b1, b2, b3])) :
    ∃ e, (e = Err.dataHeader ∨ e = Err.outOfMemory) ∧
      readIteration k (c.delivering ([b0, b1, b2, b3] ++ more) rest) =
        .next { c.delivering more rest with
          rawConn := { (c.delivering more rest).rawConn with
            deadlines := if c.hbInterval > 0 then c.rawConn.deadlines ++ [c.hbTimeout]
              else c.rawConn.deadlines },
          done := c.done ++ [e] } := by
  -- the size plays no part: every header that is read ends this way
  have _ := hbig
  refine ⟨_, ?_, readIteration_header k c b0 b1 b2 b3 more rest⟩
  split
  · exact Or.inl rfl
  · exact Or.inr rfl

/-- Witness of `oversized_header_reported`: the header `00 10 00 00` declares
1,048,576 bytes in network byte order. -/
theorem oversized_header_reported_witness :
    (1000000 < specDeclaredLength [0, 16, 0, 0] ∨
      (1000000 : Int) < toInt32 (leUint32 [0, 16, 0, 0])) ∧
    ∃ e, (e = Err.dataHeader ∨ e = Err.outOfMemory) ∧
      readIteration sampleCodec
          ((NewConn sampleSocket 0 0).delivering ([0, 16, 0, 0] ++ helloPacket) []) =
        .next { (NewConn sampleSocket 0 0).delivering helloPacket [] with
          rawConn := { ((NewConn sampleSocket 0 0).delivering helloPacket []).rawConn with
            deadlines := if (NewConn sampleSocket 0 0).hbInterval > 0
              then (NewConn sampleSocket 0 0).rawConn.deadlines
                ++ [(NewConn sampleSocket 0 0).hbTimeout]
              else (NewConn sampleSocket 0 0).rawConn.deadlines },
          done := (NewConn sampleSocket 0 0).done ++ [e] } :=
  ⟨Or.inl (by decide),
    oversized_header_reported sampleCodec (NewConn sampleSocket 0 0) 0 16 0 0 helloPacket []
      (Or.inl (by decide))⟩

/-- The network-byte-order header of a length below 2^24 starts with the byte
0. -/
theorem specHeader_leading_zero (n : Nat) (h : n < 16777216) :
    ∃ b1 b2 b3, specHeader n = [0, b1, b2, b3] := by
  refine ⟨Fin.ofNat (n / 65536), Fin.ofNat (n / 256), Fin.ofNat n, ?_⟩
  unfold specHeader
  rw [Nat.div_eq_of_lt h]
  rfl

/-- C1 (the code departs from the claim): when the socket delivers a header
whose first byte is 0, as the network-byte-order encoding of every length below
2^24 is, followed by the payload, the iteration sends "data header error" on
`done`, leaves the payload unread on the socket and enqueues nothing on
`messageCh`. So it is for the frame of `Message{kind = 1, payload = "hello"}`
under the sample codec, whose packet `Decode` accepts. -/
theorem spec_frame_rejected :
    (∀ (k : Codec) (c : Conn) (b1 b2 b3 : Byte) (payload : List Byte) (rest : List SockEvent),
      readIteration k (c.delivering ([0, b1, b2, b3] ++ payload) rest) =
        .next { c.delivering payload rest with
          rawConn := { (c.delivering payload rest).rawConn with
            deadlines := if c.hbInterval > 0 then c.rawConn.deadlines ++ [c.hbTimeout]
              else c.rawConn.deadlines },
          done := c.done ++ [Err.dataHeader] })
    ∧ specHeader helloPacket.length = [0, 0, 0, 6]
    ∧ sampleCodec.Decode helloPacket = .ok { id := 1, data := [104, 101, 108, 108, 111] }
    ∧ readIteration sampleCodec
        ((NewConn sampleSocket 0 0).delivering (specHeader helloPacket.length ++ helloPacket) []) =
      .next { (NewConn sampleSocket 0 0).delivering helloPacket [] with
        done := [Err.dataHeader], messageCh := [] } := by
  have hgen : ∀ (k : Codec) (c : Conn) (b1 b2 b3 : Byte) (payload : List Byte)
      (rest : List SockEvent),
      readIteration k (c.delivering ([0, b1, b2, b3] ++ payload) rest) =
        .next { c.delivering payload rest with
          rawConn := { (c.delivering payload rest).rawConn with
            deadlines := if c.hbInterval > 0 then c.rawConn.deadlines ++ [c.hbTimeout]
              else c.rawConn.deadlines },
          done := c.done ++ [Err.dataHeader] } := by
    intro k c b1 b2 b3 payload rest
    have hz : (Atoi [0, b1, b2, b3]).1 = 0 := by
      simp [Atoi, atoiLoop]
    rw [readIteration_header, if_pos hz]
  refine ⟨hgen, by decide, rfl, ?_⟩
  have h5 : specHeader helloPacket.length = [0, 0, 0, 6] := by decide
  rw [h5, hgen]
  rfl

/-! ## A running connection -/

/-- A `SendMessage` call that returns `nil` has changed `sendCh` only. -/
theorem SendMessage_sent (k : Codec) (call : Nat) (c c1 : Conn) (msg : Message)
    (h : c.SendMessage k call msg = .sent c1) :
    ∃ pkg, k.Encode call msg = .ok pkg ∧ c.sendCh.length < sendChCap ∧
      c1 = { c with sendCh := c.sendCh ++ [pkg] } := by
  unfold Conn.SendMessage at h
  cases henc : k.Encode call msg with
  | error e => rw [henc] at h; simp at h
  | ok pkg =>
    rw [henc] at h
    simp only at h
    split at h
    · rename_i hlen
      simp only [SendResult.sent.injEq] at h
      exact ⟨pkg, rfl, hlen, h.symm⟩
    · simp at h

/-- No step of a running connection enqueues on `messageCh` or changes the
heartbeat interval. -/
theorem step_messageCh (k : Codec) (s : ConnRun) (st : ConnStep) :
    (s.step k st).conn.messageCh = s.conn.messageCh ∧
      (s.step k st).conn.hbInterval = s.conn.hbInterval := by
  cases st with
  | read =>
    simp only [ConnRun.step]
    split
    · exact ⟨rfl, rfl⟩
    · obtain ⟨inp, e, h⟩ := readIteration_reports k s.conn
      rw [h]
      exact ⟨rfl, rfl⟩
  | write sel =>
    simp only [ConnRun.step]
    split
    · exact ⟨rfl, rfl⟩
    · cases sel with
      | ctxDone => exact ⟨rfl, rfl⟩
      | pkt =>
        simp only [writeIteration]
        split
        · exact ⟨rfl, rfl⟩
        · split
          · exact ⟨rfl, rfl⟩
          · split <;> exact ⟨rfl, rfl⟩
      | tick =>
        simp only [writeIteration]
        split
        · split
          · exact ⟨rfl, rfl⟩
          · rename_i c1 hsend
            obtain ⟨pkg, _, _, hc1⟩ := SendMessage_sent _ _ _ _ _ hsend
            subst hc1
            exact ⟨rfl, rfl⟩
          · exact ⟨rfl, rfl⟩
        · exact ⟨rfl, rfl⟩
  | expire =>
    simp only [ConnRun.step]
    split <;> exact ⟨rfl, rfl⟩
  | send msg =>
    simp only [ConnRun.step]
    split
    · exact ⟨rfl, rfl⟩
    · split
      · exact ⟨rfl, rfl⟩
      · rename_i c1 hsend
        obtain ⟨pkg, _, _, hc1⟩ := SendMessage_sent _ _ _ _ _ hsend
        subst hc1
        exact ⟨rfl, rfl⟩
      · exact ⟨rfl, rfl⟩
  | close =>
    simp only [ConnRun.step]
    split <;> exact ⟨rfl, rfl⟩

theorem run_messageCh (k : Codec) (steps : List ConnStep) :
    ∀ s : ConnRun, (s.run k steps).conn.messageCh = s.conn.messageCh := by
  induction steps with
  | nil => intro s; rfl
  | cons st rest ih =>
    intro s
    simp only [ConnRun.run, List.foldl_cons]
    have := ih (s.step k st)
    simp only [ConnRun.run] at this
    rw [this, (step_messageCh k s st).1]

theorem step_heartbeatOff (k : Codec) (d0 : List Int) (s : ConnRun) (st : ConnStep)
    (h : HeartbeatOff d0 s) : HeartbeatOff d0 (s.step k st) := by
  obtain ⟨hi, ha, hc, hr, hf, hd, hh⟩ := h
  cases st with
  | read =>
    simp only [ConnRun.step]
    split
    · exact ⟨hi, ha, hc, hr, hf, hd, hh⟩
    · obtain ⟨inp, e, hrep⟩ := readIteration_reports k s.conn
      rw [hrep]
      refine ⟨hi, ha, hc, hr, hf, ?_, hh⟩
      simp only [hi, gt_iff_lt, lt_self_iff_false, if_false]
      exact hd
  | write sel =>
    simp only [ConnRun.step]
    split
    · exact ⟨hi, ha, hc, hr, hf, hd, hh⟩
    · cases sel with
      | ctxDone => exact ⟨hi, ha, hc, hr, hf, hd, hh⟩
      | pkt =>
        simp only [writeIteration]
        split
        · exact ⟨hi, ha, hc, hr, hf, hd, hh⟩
        · split
          · exact ⟨hi, ha, hc, hr, hf, hd, hh⟩
          · rename_i pkt rest hq hne
            simp only [RawConn.Write]
            split
            · rename_i e r hw
              refine ⟨hi, ha, hc, hr, hf, ?_, hh⟩
              have hr2 : r.deadlines = s.conn.rawConn.deadlines := by
                split at hw
                · simp only [Prod.mk.injEq] at hw; rw [← hw.2]
                · split at hw
                  · simp only [Prod.mk.injEq] at hw; rw [← hw.2]
                  · simp at hw
              exact hr2.trans hd
            · rename_i r hw
              refine ⟨hi, ha, hc, hr, hf, ?_, hh⟩
              have hr2 : r.deadlines = s.conn.rawConn.deadlines := by
                split at hw
                · simp at hw
                · split at hw
                  · simp at hw
                  · simp only [Prod.mk.injEq] at hw; rw [← hw.2]
              exact hr2.trans hd
      | tick =>
        simp only [writeIteration, hc, Bool.false_eq_true, if_false]
        exact ⟨hi, ha, hc, hr, hf, hd, hh⟩
  | expire =>
    simp only [ConnRun.step]
    split
    · exact ⟨hi, ha, hc, hr, hf, hd, hh⟩
    · simp only [Timer.expire, ha, Bool.false_eq_true, if_false]
      exact ⟨hi, ha, hc, hr, hf, hd, hh⟩
  | send msg =>
    simp only [ConnRun.step]
    split
    · exact ⟨hi, ha, hc, hr, hf, hd, hh⟩
    · split
      · exact ⟨hi, ha, hc, hr, hf, hd, hh⟩
      · rename_i c1 hsend
        obtain ⟨pkg, _, _, hc1⟩ := SendMessage_sent _ _ _ _ _ hsend
        subst hc1
        exact ⟨hi, ha, hc, hr, hf, hd, hh⟩
      · exact ⟨hi, ha, hc, hr, hf, hd, hh⟩
  | close =>
    simp only [ConnRun.step]
    split
    · exact ⟨hi, ha, hc, hr, hf, hd, hh⟩
    · exact ⟨hi, rfl, hc, hr, hf, hd, hh⟩

theorem run_heartbeatOff (k : Codec) (d0 : List Int) (steps : List ConnStep) :
    ∀ s : ConnRun, HeartbeatOff d0 s → HeartbeatOff d0 (s.run k steps) := by
  induction steps with
  | nil => intro s h; exact h
  | cons st rest ih =>
    intro s h
    simp only [ConnRun.run, List.foldl_cons]
    exact ih (s.step k st) (step_heartbeatOff k d0 s st h)

/-- C7: a connection made by `NewConn` with `hbInterval = 0` has its timer
stopped (not armed, no tick pending), and after any sequence of steps of the
read unit, the write unit, the clock, `SendMessage` and `Close`, no read deadline
has been set, the timer has not been reset and has not fired, and the write unit
has built no heartbeat message. -/
theorem heartbeat_disabled (k : Codec) (raw : RawConn) (hbTimeout : Int)
    (steps : List ConnStep) :
    (NewConn raw 0 hbTimeout).hbTimer.active = false ∧
    (NewConn raw 0 hbTimeout).hbTimer.C = false ∧
    ((ConnRun.start raw 0 hbTimeout).run k steps).conn.rawConn.deadlines = raw.deadlines ∧
    ((ConnRun.start raw 0 hbTimeout).run k steps).conn.hbTimer.resets = 0 ∧
    ((ConnRun.start raw 0 hbTimeout).run k steps).conn.hbTimer.fired = 0 ∧
    ((ConnRun.start raw 0 hbTimeout).run k steps).conn.hbTimer.C = false ∧
    ((ConnRun.start raw 0 hbTimeout).run k steps).heartbeats = 0 := by
  have h0 : HeartbeatOff raw.deadlines (ConnRun.start raw 0 hbTimeout) :=
    ⟨rfl, rfl, rfl, rfl, rfl, rfl, rfl⟩
  obtain ⟨_, _, hc, hr, hf, hd, hh⟩ := run_heartbeatOff k raw.deadlines steps _ h0
  exact ⟨rfl, rfl, hd, hr, hf, hc, hh⟩

/-! ## The service: heartbeat configuration -/

/-- C4: `SetHeartBeat(i, t)` returns an error exactly when the status is
`STRunning`; with an error the service is unchanged, without one it is the
service with `hbInterval = i` and `hbTimeout = t` and every other field as it
was. -/
theorem setHeartBeat_contract {σ : Type} (s : SocketService σ) (i t : Int) :
    ((s.SetHeartBeat i t).1 ≠ none ↔ s.status = STRunning) ∧
    (s.SetHeartBeat i t).2 =
      (if (s.SetHeartBeat i t).1 ≠ none then s
       else { s with hbInterval := i, hbTimeout := t }) ∧
    (s.SetHeartBeat i t).2.hbInterval = (if s.status = STRunning then s.hbInterval else i) ∧
    (s.SetHeartBeat i t).2.hbTimeout = (if s.status = STRunning then s.hbTimeout else t) := by
  unfold SocketService.SetHeartBeat
  by_cases h : s.status = STRunning
  · simp [h]
  · simp [h]

/-- C5 as stated fails: after `Serv` has set the status to `STRunning` and
then returned, a `SetHeartBeat(5, 10)` call changes both values. -/
theorem config_mutable_after_stop :
    ¬ (∀ (s0 : SocketService Unit) (before after : List ServiceOp),
        ((s0.applyAll before).ServStart.applyAll after).hbInterval =
            (s0.applyAll before).ServStart.hbInterval ∧
        ((s0.applyAll before).ServStart.applyAll after).hbTimeout =
            (s0.applyAll before).ServStart.hbTimeout) := by
  intro h
  have h1 := (h (NewSocketService Unit ":9000") []
    [ServiceOp.servReturn, ServiceOp.setHeartBeat 5 10]).1
  revert h1
  decide

theorem apply_running {σ : Type} (s : SocketService σ) (op : ServiceOp)
    (hrun : s.status = STRunning) (hop : op ≠ ServiceOp.servReturn) :
    (s.apply op).status = STRunning ∧ (s.apply op).hbInterval = s.hbInterval ∧
      (s.apply op).hbTimeout = s.hbTimeout := by
  cases op with
  | servStart => exact ⟨rfl, rfl, rfl⟩
  | servReturn => exact absurd rfl hop
  | setHeartBeat i t =>
    simp only [SocketService.apply, SocketService.SetHeartBeat, hrun, if_true]
    exact ⟨trivial, trivial, trivial⟩

/-- C5 amended: while the service is running, from the moment `Serv` has set
the status to `STRunning` until `Serv` returns, no operation changes `hbInterval`
or `hbTimeout`, whatever `SetHeartBeat` calls are made, and the status stays
`STRunning` throughout; once `Serv` has returned, on any service, the status is
`STStop` and `SetHeartBeat(i, t)` returns no error and sets `hbInterval = i` and
`hbTimeout = t`, every other field staying as it was. -/
theorem config_fixed_while_running {σ : Type} (s : SocketService σ) (ops : List ServiceOp)
    (hno : ServiceOp.servReturn ∉ ops) :
    ((s.ServStart.applyAll ops).status = STRunning ∧
      (s.ServStart.applyAll ops).hbInterval = s.ServStart.hbInterval ∧
      (s.ServStart.applyAll ops).hbTimeout = s.ServStart.hbTimeout) ∧
    (∀ (s1 : SocketService σ) (i t : Int),
      s1.ServReturn.status = STStop ∧
      (s1.ServReturn.SetHeartBeat i t).1 = none ∧
      (s1.ServReturn.SetHeartBeat i t).2 =
        { s1.ServReturn with hbInterval := i, hbTimeout := t } ∧
      (s1.ServReturn.SetHeartBeat i t).2.hbInterval = i ∧
      (s1.ServReturn.SetHeartBeat i t).2.hbTimeout = t) := by
  have gen : ∀ (ops : List ServiceOp) (s1 : SocketService σ), s1.status = STRunning →
      ServiceOp.servReturn ∉ ops →
      (s1.applyAll ops).status = STRunning ∧ (s1.applyAll ops).hbInterval = s1.hbInterval ∧
        (s1.applyAll ops).hbTimeout = s1.hbTimeout := by
    intro ops
    induction ops with
    | nil => intro s1 h1 _; exact ⟨h1, rfl, rfl⟩
    | cons op rest ih =>
      intro s1 h1 hmem
      have hop : op ≠ ServiceOp.servReturn := fun h => hmem (by simp [h])
      have hrest : ServiceOp.servReturn ∉ rest := fun h => hmem (by simp [h])
      obtain ⟨ha, hb, hc⟩ := apply_running s1 op h1 hop
      obtain ⟨hd, he, hf⟩ := ih (s1.apply op) ha hrest
      simp only [SocketService.applyAll, List.foldl_cons]
      simp only [SocketService.applyAll] at hd he hf
      exact ⟨hd, he.trans hb, hf.trans hc⟩
  refine ⟨gen ops s.ServStart rfl hno, ?_⟩
  intro s1 i t
  have hst : ¬ s1.ServReturn.status = STRunning := by
    simp only [SocketService.ServReturn]
    decide
  simp only [SocketService.SetHeartBeat, if_neg hst]
  exact ⟨rfl, trivial, trivial, trivial, trivial⟩

/-- Witness of `config_fixed_while_running`: two `SetHeartBeat` calls and a
second `Serv` on the running sample service change neither value; after `Serv`
has returned, `SetHeartBeat(5, 10)` sets both. -/
theorem config_fixed_while_running_witness :
    ServiceOp.servReturn ∉
      [ServiceOp.setHeartBeat 5 10, ServiceOp.servStart, ServiceOp.setHeartBeat 0 0] ∧
    ((sampleService.ServStart.applyAll
      [ServiceOp.setHeartBeat 5 10, ServiceOp.servStart, ServiceOp.setHeartBeat 0 0]).status
        = STRunning ∧
    (sampleService.ServStart.applyAll
      [ServiceOp.setHeartBeat 5 10, ServiceOp.servStart, ServiceOp.setHeartBeat 0 0]).hbInterval
        = sampleService.ServStart.hbInterval ∧
    (sampleService.ServStart.applyAll
      [ServiceOp.setHeartBeat 5 10, ServiceOp.servStart, ServiceOp.setHeartBeat 0 0]).hbTimeout
        = sampleService.ServStart.hbTimeout) ∧
    (sampleService.ServReturn.status = STStop ∧
      (sampleService.ServReturn.SetHeartBeat 5 10).1 = none ∧
      (sampleService.ServReturn.SetHeartBeat 5 10).2 =
        { sampleService.ServReturn with hbInterval := 5, hbTimeout := 10 } ∧
      (sampleService.ServReturn.SetHeartBeat 5 10).2.hbInterval = 5 ∧
      (sampleService.ServReturn.SetHeartBeat 5 10).2.hbTimeout = 10) :=
  ⟨by decide,
    (config_fixed_while_running sampleService
      [ServiceOp.setHeartBeat 5 10, ServiceOp.servStart, ServiceOp.setHeartBeat 0 0]
      (by decide)).1,
    (config_fixed_while_running sampleService
      [ServiceOp.setHeartBeat 5 10, ServiceOp.servStart, ServiceOp.setHeartBeat 0 0]
      (by decide)).2 sampleService 5 10⟩

/-! ## The service: unicast and broadcast -/

theorem mapLoad_none (m : List (String × Session)) (sid : String)
    (h : sid ∉ m.map Prod.fst) : mapLoad m sid = none := by
  unfold mapLoad
  have : m.find? (fun kv => decide (kv.1 = sid)) = none := by
    rw [List.find?_eq_none]
    intro kv hkv
    simp only [decide_eq_true_eq]
    intro heq
    exact h (List.mem_map.mpr ⟨kv, hkv, heq⟩)
  rw [this]
  rfl

/-- C8: `Unicast(sid, msg)` with `sid` not a key of the registry changes
nothing: no `SendMessage` call, no `Encode` call, the registry, every connection
and the application state as they were. -/
theorem unicast_unknown_session {σ : Type} (k : Codec) (w : World σ) (sid : String)
    (msg : Message) (h : sid ∉ w.svc.sessions.map Prod.fst) :
    Unicast k w sid msg = w := by
  unfold Unicast
  rw [mapLoad_none _ _ h]

/-- Witness of `unicast_unknown_session`: the sample registry has the keys
`s1` and `s2` only. -/
theorem unicast_unknown_session_witness :
    "s3" ∉ sampleWorld.svc.sessions.map Prod.fst ∧
    Unicast sampleCodec sampleWorld "s3" (NewMessage 1 [104, 105]) = sampleWorld :=
  ⟨by decide, unicast_unknown_session sampleCodec sampleWorld "s3" (NewMessage 1 [104, 105])
    (by decide)⟩

/-- The statement `session.GetConn().SendMessage(msg)` on a connection with
room on its `sendCh`: the call returns. -/
theorem sendTo_room {σ : Type} (k : Codec) (w : World σ) (session : Session) (msg : Message)
    (hroom : (w.heap session.GetConn).sendCh.length < sendChCap) :
    w.sendTo k session msg =
      ({ w with heap := Function.update w.heap session.GetConn
                  (afterSend k w.encodeCalls msg (w.heap session.GetConn)),
                encodeCalls := w.encodeCalls + 1,
                sends := w.sends ++
                  [{ conn := session.GetConn, msg := msg,
                     result := .returned (encodeErr k w.encodeCalls msg) }] }, true) := by
  unfold World.sendTo Conn.SendMessage afterSend encodeErr
  cases k.Encode w.encodeCalls msg with
  | error e => simp only [Function.update_eq_self]
  | ok pkg => simp only [hroom, if_true]

/-- The statement `session.GetConn().SendMessage(msg)` on a connection whose
`sendCh` is full, when `Encode` succeeds: the call does not return. -/
theorem sendTo_full {σ : Type} (k : Codec) (w : World σ) (session : Session) (msg : Message)
    (pkg : List Byte) (henc : k.Encode w.encodeCalls msg = .ok pkg)
    (hfull : sendChCap ≤ (w.heap session.GetConn).sendCh.length) :
    w.sendTo k session msg =
      ({ w with encodeCalls := w.encodeCalls + 1,
                sends := w.sends ++
                  [{ conn := session.GetConn, msg := msg, result := .blocked }],
                waiting := some (session.GetConn, pkg) }, false) := by
  unfold World.sendTo Conn.SendMessage
  rw [henc]
  simp only [Nat.not_lt.mpr hfull, if_false]

/-- The `Range` of `Broadcast` stops at an entry whose connection has a full
`sendCh`, when `Encode` succeeds: no entry after it is visited. -/
theorem rangeSend_blocks {σ : Type} (k : Codec) (msg : Message) (kv : String × Session)
    (rest : List (String × Session)) (w : World σ) (pkg : List Byte)
    (henc : k.Encode w.encodeCalls msg = .ok pkg)
    (hfull : sendChCap ≤ (w.heap kv.2.GetConn).sendCh.length) :
    rangeSend k msg (kv :: rest) w =
      { w with encodeCalls := w.encodeCalls + 1,
               sends := w.sends ++ [{ conn := kv.2.GetConn, msg := msg, result := .blocked }],
               waiting := some (kv.2.GetConn, pkg) } := by
  rw [rangeSend, sendTo_full k w kv.2 msg pkg henc hfull]

/-- The `Range` of `Broadcast` over entries whose sessions have connections of
their own, each with room on its `sendCh`: one `SendMessage` call per entry, in
order, whether or not earlier calls failed; the packet is appended where
`Encode` succeeded; nothing else changes. -/
theorem rangeSend_with_room {σ : Type} (k : Codec) (msg : Message)
    (ss : List (String × Session)) :
    ∀ w : World σ, (ss.map (fun kv => kv.2.GetConn)).Nodup →
      (∀ kv ∈ ss, (w.heap kv.2.GetConn).sendCh.length < sendChCap) →
      (rangeSend k msg ss w).svc = w.svc ∧
      (rangeSend k msg ss w).app = w.app ∧
      (rangeSend k msg ss w).calls = w.calls ∧
      (rangeSend k msg ss w).waiting = w.waiting ∧
      (rangeSend k msg ss w).encodeCalls = w.encodeCalls + ss.length ∧
      (rangeSend k msg ss w).sends =
        w.sends ++ (ss.enumFrom w.encodeCalls).map
          (fun ikv => { conn := ikv.2.2.GetConn, msg := msg,
                        result := .returned (encodeErr k ikv.1 msg) }) ∧
      (∀ i kv, (i, kv) ∈ ss.enumFrom w.encodeCalls →
        (rangeSend k msg ss w).heap kv.2.GetConn = afterSend k i msg (w.heap kv.2.GetConn)) ∧
      (∀ p, p ∉ ss.map (fun kv => kv.2.GetConn) → (rangeSend k msg ss w).heap p = w.heap p) := by
  induction ss with
  | nil =>
    intro w _ _
    refine ⟨rfl, rfl, rfl, rfl, rfl, by simp [rangeSend], ?_, fun _ _ => rfl⟩
    intro i kv h
    simp at h
  | cons kv0 rest ih =>
    intro w hnd hroom
    rw [List.map_cons, List.nodup_cons] at hnd
    obtain ⟨hnot, hrest⟩ := hnd
    have hstep := sendTo_room k w kv0.2 msg (hroom kv0 (List.mem_cons_self _ _))
    rw [rangeSend, hstep]
    have hroom1 : ∀ kv ∈ rest,
        (Function.update w.heap kv0.2.GetConn
          (afterSend k w.encodeCalls msg (w.heap kv0.2.GetConn)) kv.2.GetConn).sendCh.length
            < sendChCap := by
      intro kv hkv
      have hne : kv.2.GetConn ≠ kv0.2.GetConn := by
        intro heq
        apply hnot
        rw [← heq]
        exact List.mem_map.mpr ⟨kv, hkv, rfl⟩
      rw [Function.update_noteq hne]
      exact hroom kv (List.mem_cons_of_mem _ hkv)
    obtain ⟨h1, h2, h3, h4, h5, h6, h7, h8⟩ := ih
      { w with heap := Function.update w.heap kv0.2.GetConn
                 (afterSend k w.encodeCalls msg (w.heap kv0.2.GetConn)),
               encodeCalls := w.encodeCalls + 1,
               sends := w.sends ++
                 [{ conn := kv0.2.GetConn, msg := msg,
                    result := .returned (encodeErr k w.encodeCalls msg) }] }
      hrest hroom1
    refine ⟨h1, h2, h3, h4, ?_, ?_, ?_, ?_⟩
    · rw [h5]
      simp only [List.length_cons]
      omega
    · rw [h6]
      simp only [List.enumFrom_cons, List.map_cons, List.append_assoc, List.singleton_append]
    · intro i kv hmem
      rw [List.enumFrom_cons, List.mem_cons] at hmem
      rcases hmem with heq | hmem
      · simp only [Prod.mk.injEq] at heq
        obtain ⟨hi, hkv⟩ := heq
        subst hi hkv
        rw [h8 _ hnot]
        simp only [Function.update_same]
      · have hin : kv ∈ rest := List.snd_mem_of_mem_enumFrom hmem
        have hne : kv.2.GetConn ≠ kv0.2.GetConn := by
          intro heq
          apply hnot
          rw [← heq]
          exact List.mem_map.mpr ⟨kv, hin, rfl⟩
        rw [h7 i kv hmem]
        simp only [Function.update_noteq hne]
    · intro p hp
      rw [List.map_cons, List.mem_cons, not_or] at hp
      rw [h8 p hp.2]
      simp only [Function.update_noteq hp.1]

/-- C9 (the code departs from the claim): with three sessions registered and
100 packets pending on the `sendCh` of the first connection visited, whose write
unit takes none, `Broadcast` makes one `SendMessage` call, which waits at the
send on `sendCh`; `SendMessage` is never called for the second and the third
session and their connections receive nothing, although `Encode` succeeds for
the message and both connections have room. With room on every connection the
same broadcast reaches all three, also when the `Encode` call for the second one
fails. -/
theorem broadcast_blocks_on_full_sendCh :
    (Broadcast sampleCodec stalledWorld (NewMessage 1 [104, 105])).sends =
      [{ conn := 1, msg := NewMessage 1 [104, 105], result := .blocked }] ∧
    (Broadcast sampleCodec stalledWorld (NewMessage 1 [104, 105])).waiting =
      some (1, [1, 104, 105]) ∧
    ((Broadcast sampleCodec stalledWorld (NewMessage 1 [104, 105])).heap 1).sendCh =
      List.replicate 100 helloPacket ∧
    ((Broadcast sampleCodec stalledWorld (NewMessage 1 [104, 105])).heap 2).sendCh = [] ∧
    ((Broadcast sampleCodec stalledWorld (NewMessage 1 [104, 105])).heap 3).sendCh = [] ∧
    sampleCodec.Encode 1 (NewMessage 1 [104, 105]) = .ok [1, 104, 105] ∧
    sampleCodec.Encode 2 (NewMessage 1 [104, 105]) = .ok [1, 104, 105] ∧
    (Broadcast failingOnceCodec threeWorld (NewMessage 1 [104, 105])).sends =
      [{ conn := 1, msg := NewMessage 1 [104, 105], result := .returned none },
       { conn := 2, msg := NewMessage 1 [104, 105],
         result := .returned (some (Err.other "serialization")) },
       { conn := 3, msg := NewMessage 1 [104, 105], result := .returned none }] ∧
    ((Broadcast failingOnceCodec threeWorld (NewMessage 1 [104, 105])).heap 3).sendCh
      = [[1, 104, 105]] := by
  have hb : Broadcast sampleCodec stalledWorld (NewMessage 1 [104, 105]) =
      { stalledWorld with
        encodeCalls := stalledWorld.encodeCalls + 1,
        sends := stalledWorld.sends ++
          [{ conn := 1, msg := NewMessage 1 [104, 105], result := .blocked }],
        waiting := some (1, [1, 104, 105]) } :=
    rangeSend_blocks sampleCodec (NewMessage 1 [104, 105])
      ("s1", { sid := "s1", uid := "", conn := 1 }) _ stalledWorld [1, 104, 105] rfl
      (by decide)
  rw [hb]
  refine ⟨rfl, rfl, rfl, rfl, rfl, rfl, rfl, ?_, ?_⟩
  · decide
  · decide

/-! ## The service: the handler of a connection -/

/-- A sequence of events with an error in it is a run of messages, the first
error, and the rest. -/
theorem events_split (evs : List Event) (h : ∃ e, Event.done e ∈ evs) :
    ∃ (msgs : List Message) (e : Err) (post : List Event),
      evs = msgs.map Event.message ++ Event.done e :: post := by
  induction evs with
  | nil => obtain ⟨e, he⟩ := h; simp at he
  | cons ev rest ih =>
    cases ev with
    | done e => exact ⟨[], e, rest, rfl⟩
    | message m =>
      obtain ⟨e, he⟩ := h
      have hrest : ∃ e, Event.done e ∈ rest := by
        rcases List.mem_cons.mp he with h1 | h1
        · cases h1
        · exact ⟨e, h1⟩
      obtain ⟨msgs, e1, post, hsplit⟩ := ih hrest
      exact ⟨m :: msgs, e1, post, by rw [hsplit]; rfl⟩

theorem dispatchLoop_split {σ : Type} (session : Session) (e : Err) (post : List Event)
    (fD : Session → Err → σ → σ) (msgs : List Message) :
    ∀ w : World σ, w.svc.onDisconnect = some fD →
      dispatchLoop session (msgs.map Event.message ++ Event.done e :: post) w =
        ({ w with app := fD session e (appAfterMessages w.svc session msgs w.app),
                  calls := w.calls ++ messageCalls w.svc session msgs
                    ++ [Call.disconnect session e] }, true) := by
  induction msgs with
  | nil =>
    intro w hD
    simp only [List.map_nil, List.nil_append, dispatchLoop, hD, appAfterMessages, messageCalls]
    cases w.svc.onMessage <;> simp
  | cons m rest ih =>
    intro w hD
    rw [show (m :: rest).map Event.message ++ Event.done e :: post =
      Event.message m :: (rest.map Event.message ++ Event.done e :: post) from rfl]
    rw [dispatchLoop]
    cases hM : w.svc.onMessage with
    | none =>
      simp only []
      rw [ih w hD]
      simp [appAfterMessages, messageCalls, hM]
    | some f =>
      simp only []
      rw [ih { w with app := f session m w.app, calls := w.calls ++ [Call.message session m] } hD]
      simp [appAfterMessages, messageCalls, hM]

/-- C2: `connectHandler` on a sequence of events that contains an error
signal, with `onDisconnect` registered: the sequence is a run of messages, the
first error `e` and a rest; the handler returns; the callbacks invoked are
`onConnect` (if registered), then `onMessage` once for each message of the run in
order (if registered), then `onDisconnect` once with `e`, and nothing else,
whatever the rest holds; the application state is the one these calls
produce. -/
theorem disconnect_exactly_once {σ : Type} (w : World σ) (c : RawConn) (ptr : Nat)
    (sid : String) (evs : List Event) (fD : Session → Err → σ → σ)
    (hD : w.svc.onDisconnect = some fD) (hev : ∃ e, Event.done e ∈ evs) :
    ∃ msgs e post, evs = msgs.map Event.message ++ Event.done e :: post ∧
      (connectHandler w c ptr sid evs).2 = true ∧
      (connectHandler w c ptr sid evs).1.calls =
        w.calls ++ connectCalls w.svc { sid := sid, uid := "", conn := ptr }
          ++ messageCalls w.svc { sid := sid, uid := "", conn := ptr } msgs
          ++ [Call.disconnect { sid := sid, uid := "", conn := ptr } e] ∧
      (connectHandler w c ptr sid evs).1.app =
        fD { sid := sid, uid := "", conn := ptr } e
          (appAfterMessages w.svc { sid := sid, uid := "", conn := ptr } msgs
            (appAfterConnect w.svc { sid := sid, uid := "", conn := ptr } w.app)) ∧
      (connectHandler w c ptr sid evs).1.svc.sessions = mapDelete w.svc.sessions sid := by
  obtain ⟨msgs, e, post, hsplit⟩ := events_split evs hev
  refine ⟨msgs, e, post, hsplit, ?_⟩
  subst hsplit
  have hD2 : ((w.register c { sid := sid, uid := "", conn := ptr }).notifyConnect
      { sid := sid, uid := "", conn := ptr }).svc.onDisconnect = some fD := by
    unfold World.notifyConnect World.register
    cases w.svc.onConnect <;> exact hD
  unfold connectHandler
  simp only []
  rw [dispatchLoop_split { sid := sid, uid := "", conn := ptr } e post fD msgs
    ((w.register c { sid := sid, uid := "", conn := ptr }).notifyConnect
      { sid := sid, uid := "", conn := ptr }) hD2]
  unfold World.notifyConnect World.register World.unwind
  cases hC : w.svc.onConnect with
  | none =>
    simp [connectCalls, appAfterConnect, messageCalls, appAfterMessages, hC, mapStore,
      mapDelete, Session.GetSessionID, List.filter_filter]
  | some fC =>
    simp [connectCalls, appAfterConnect, messageCalls, appAfterMessages, hC, mapStore,
      mapDelete, Session.GetSessionID, List.filter_filter]

/-- Witness of `disconnect_exactly_once`: two messages, then a read error and
a write error together, then one more message. -/
theorem disconnect_exactly_once_witness :
    sampleWorld.svc.onDisconnect = some (fun _ _ a => a + 100) ∧
    (∃ e, Event.done e ∈ [Event.message (NewMessage 1 [104]), Event.message (NewMessage 2 []),
      Event.done Err.eof, Event.done Err.closed, Event.message (NewMessage 3 [])]) ∧
    ∃ msgs e post,
      [Event.message (NewMessage 1 [104]), Event.message (NewMessage 2 []),
        Event.done Err.eof, Event.done Err.closed, Event.message (NewMessage 3 [])] =
        msgs.map Event.message ++ Event.done e :: post ∧
      (connectHandler sampleWorld sampleSocket 7 "s7"
        [Event.message (NewMessage 1 [104]), Event.message (NewMessage 2 []),
          Event.done Err.eof, Event.done Err.closed, Event.message (NewMessage 3 [])]).2 = true ∧
      (connectHandler sampleWorld sampleSocket 7 "s7"
        [Event.message (NewMessage 1 [104]), Event.message (NewMessage 2 []),
          Event.done Err.eof, Event.done Err.closed, Event.message (NewMessage 3 [])]).1.calls =
        sampleWorld.calls ++ connectCalls sampleWorld.svc { sid := "s7", uid := "", conn := 7 }
          ++ messageCalls sampleWorld.svc { sid := "s7", uid := "", conn := 7 } msgs
          ++ [Call.disconnect { sid := "s7", uid := "", conn := 7 } e] ∧
      (connectHandler sampleWorld sampleSocket 7 "s7"
        [Event.message (NewMessage 1 [104]), Event.message (NewMessage 2 []),
          Event.done Err.eof, Event.done Err.closed, Event.message (NewMessage 3 [])]).1.app =
        (fun _ _ a => a + 100) ({ sid := "s7", uid := "", conn := 7 } : Session) e
          (appAfterMessages sampleWorld.svc { sid := "s7", uid := "", conn := 7 } msgs
            (appAfterConnect sampleWorld.svc { sid := "s7", uid := "", conn := 7 }
              sampleWorld.app)) ∧
      (connectHandler sampleWorld sampleSocket 7 "s7"
        [Event.message (NewMessage 1 [104]), Event.message (NewMessage 2 []),
          Event.done Err.eof, Event.done Err.closed, Event.message (NewMessage 3 [])]).1.svc.sessions
        = mapDelete sampleWorld.svc.sessions "s7" :=
  ⟨rfl, ⟨Err.eof, by decide⟩,
    disconnect_exactly_once sampleWorld sampleSocket 7 "s7"
      [Event.message (NewMessage 1 [104]), Event.message (NewMessage 2 []),
        Event.done Err.eof, Event.done Err.closed, Event.message (NewMessage 3 [])]
      (fun _ _ a => a + 100) rfl ⟨Err.eof, by decide⟩⟩

/-! ## Heartbeats and the application -/

/-- The check of lines 167-171: a pass through the payload part of an iteration
adds to `messageCh` at most one message, and never one of the heartbeat kind. -/
theorem readPayload_filter (k : Codec) (c : Conn) (dataSize : Int) :
    (readPayload k c dataSize).conn.messageCh = c.messageCh ∨
      ∃ m, m.GetID ≠ k.MsgHeartbeat ∧
        (readPayload k c dataSize).conn.messageCh = c.messageCh ++ [m] := by
  unfold readPayload
  split
  · exact Or.inl rfl
  · split
    · exact Or.inl rfl
    · split
      · exact Or.inl rfl
      · split
        · exact Or.inl rfl
        · rename_i msg _
          by_cases hm : msg.GetID = k.MsgHeartbeat
          · left
            simp only [hm, if_true]
            split <;> rfl
          · right
            refine ⟨msg, hm, ?_⟩
            simp only [hm, if_false]
            split <;> rfl

theorem received_messages (m : Message) (sched : List Bool) :
    ∀ (es : List Err) (ms : List Message), Event.message m ∈ received sched es ms → m ∈ ms := by
  induction sched with
  | nil => intro es ms h; simp [received] at h
  | cons b s ih =>
    intro es ms h
    cases b <;> cases es <;> cases ms <;>
      simp only [received, List.mem_cons, List.not_mem_nil] at h
    all_goals
      rcases h with h | h
      · first
          | (cases h; exact List.mem_cons_self _ _)
          | cases h
      · first
          | exact List.mem_cons_of_mem _ (ih _ _ h)
          | exact ih _ _ h

theorem dispatchLoop_new_calls {σ : Type} (hb : Nat) (session : Session) (evs : List Event) :
    ∀ w : World σ, (∀ m, Event.message m ∈ evs → m.GetID ≠ hb) →
      ∃ new, (dispatchLoop session evs w).1.calls = w.calls ++ new ∧
        new.all (Call.notHeartbeat hb) = true := by
  induction evs with
  | nil => intro w _; exact ⟨[], by simp [dispatchLoop], rfl⟩
  | cons ev rest ih =>
    intro w hmsg
    cases ev with
    | done e =>
      rw [dispatchLoop]
      cases w.svc.onDisconnect with
      | none => exact ⟨[], by simp, rfl⟩
      | some f => exact ⟨[Call.disconnect session e], rfl, rfl⟩
    | message m =>
      rw [dispatchLoop]
      have hrest : ∀ m1, Event.message m1 ∈ rest → m1.GetID ≠ hb :=
        fun m1 h1 => hmsg m1 (List.mem_cons_of_mem _ h1)
      have hm : m.GetID ≠ hb := hmsg m (List.mem_cons_self _ _)
      cases w.svc.onMessage with
      | none => exact ih w hrest
      | some f =>
        obtain ⟨new, hnew, hall⟩ := ih
          { w with app := f session m w.app, calls := w.calls ++ [Call.message session m] } hrest
        refine ⟨Call.message session m :: new, ?_, ?_⟩
        · simp only []
          rw [hnew]
          simp
        · simp only [List.all_cons, hall, Bool.and_true, Call.notHeartbeat]
          simpa using hm

theorem connectHandler_new_calls {σ : Type} (hb : Nat) (w : World σ) (c : RawConn) (ptr : Nat)
    (sid : String) (evs : List Event) (hmsg : ∀ m, Event.message m ∈ evs → m.GetID ≠ hb) :
    ∃ new, (connectHandler w c ptr sid evs).1.calls = w.calls ++ new ∧
      new.all (Call.notHeartbeat hb) = true := by
  obtain ⟨new, hnew, hall⟩ := dispatchLoop_new_calls hb { sid := sid, uid := "", conn := ptr } evs
    ((w.register c { sid := sid, uid := "", conn := ptr }).notifyConnect
      { sid := sid, uid := "", conn := ptr }) hmsg
  have hpre : ∃ pre, ((w.register c { sid := sid, uid := "", conn := ptr }).notifyConnect
      { sid := sid, uid := "", conn := ptr }).calls = w.calls ++ pre ∧
      pre.all (Call.notHeartbeat hb) = true := by
    unfold World.notifyConnect World.register
    cases w.svc.onConnect with
    | none => exact ⟨[], by simp, rfl⟩
    | some f => exact ⟨[Call.connect { sid := sid, uid := "", conn := ptr }], rfl, rfl⟩
  obtain ⟨pre, hpre1, hpre2⟩ := hpre
  refine ⟨pre ++ new, ?_, by simp [List.all_append, hpre2, hall]⟩
  have hcalls : (connectHandler w c ptr sid evs).1.calls =
      (dispatchLoop { sid := sid, uid := "", conn := ptr } evs
        ((w.register c { sid := sid, uid := "", conn := ptr }).notifyConnect
          { sid := sid, uid := "", conn := ptr })).1.calls := by
    unfold connectHandler
    simp only []
    split
    · rename_i heq; rw [heq]; rfl
    · rename_i heq; rw [heq]
  rw [hcalls, hnew, hpre1, List.append_assoc]

/-- C3: the read unit never enqueues a message of kind `MsgHeartbeat` on
`messageCh`: the payload part of an iteration enqueues at most one message and
none of that kind; after any run of a connection made by `NewConn` no message
on `messageCh` is of that kind; and whatever the order in which the handler
receives what the connection has put on `done` and `messageCh`, none of the
callback invocations it makes hands a message of that kind to `onMessage`. -/
theorem heartbeat_never_delivered {σ : Type} (k : Codec) :
    (∀ (c : Conn) (dataSize : Int),
      (readPayload k c dataSize).conn.messageCh = c.messageCh ∨
        ∃ m, m.GetID ≠ k.MsgHeartbeat ∧
          (readPayload k c dataSize).conn.messageCh = c.messageCh ++ [m]) ∧
    (∀ (raw : RawConn) (i t : Int) (steps : List ConnStep),
      (((ConnRun.start raw i t).run k steps).conn.messageCh.all
        (fun m => m.GetID != k.MsgHeartbeat)) = true) ∧
    (∀ (w : World σ) (raw : RawConn) (ptr : Nat) (sid : String) (steps : List ConnStep)
        (sched : List Bool),
      ∃ new, (connectHandler w raw ptr sid
          (received sched
            ((ConnRun.start raw w.svc.hbInterval w.svc.hbTimeout).run k steps).conn.done
            ((ConnRun.start raw w.svc.hbInterval w.svc.hbTimeout).run k steps).conn.messageCh)
          ).1.calls = w.calls ++ new ∧
        new.all (Call.notHeartbeat k.MsgHeartbeat) = true) := by
  have hempty : ∀ (raw : RawConn) (i t : Int) (steps : List ConnStep),
      ((ConnRun.start raw i t).run k steps).conn.messageCh = [] := by
    intro raw i t steps
    rw [run_messageCh]
    unfold ConnRun.start NewConn
    simp only []
    split <;> rfl
  refine ⟨readPayload_filter k, ?_, ?_⟩
  · intro raw i t steps
    rw [hempty]
    rfl
  · intro w raw ptr sid steps sched
    apply connectHandler_new_calls
    intro m hm
    have := received_messages m sched _ _ hm
    rw [hempty] at this
    simp at this

end TcpSocket
